import Mathlib

/-!
Verification development for the model-selection and robust-fitting core of
`boosted_fits.py` (svj_limits).  Machine floats are modelled by exact
rationals; a non-finite float outcome (NaN / +-inf, e.g. from a division by
zero) is modelled by `Option.none` through the explicit division `num_div`.
External collaborators (scipy's `minimize`, ROOT's F-distribution CDF, the
RooFit likelihood engine, the persistent cache store) are abstracted as
function parameters or, for the cache, modelled from the spec's contract.
-/

/-- Model of a numpy/python float outcome: either a finite value or one of
the non-finite sentinels (`nan`, `inf`, `-inf`). -/
inductive FloatVal where
  | finite : ℚ → FloatVal
  | nan : FloatVal
  | posinf : FloatVal
  | neginf : FloatVal
deriving DecidableEq, Repr

/-- Model of `np.isnan`. -/
def FloatVal.isnan : FloatVal → Bool
  | .nan => true
  | _ => false

/-- Model of `np.isposinf`. -/
def FloatVal.isposinf : FloatVal → Bool
  | .posinf => true
  | _ => false

/-- Model of `np.isneginf`. -/
def FloatVal.isneginf : FloatVal → Bool
  | .neginf => true
  | _ => false

/-- The finite value carried by a `FloatVal` (0 for the non-finite
sentinels; only used after filtering for finiteness, mirroring that
`np.argmin` in the source only ever compares the kept finite values). -/
def FloatVal.val : FloatVal → ℚ
  | .finite q => q
  | _ => 0

/-- Division that records a division by zero: the source divides floats
unguarded, which yields a non-finite value (and propagates) when the
denominator is zero.  `none` models that non-finite outcome. -/
def num_div (a b : ℚ) : Option ℚ :=
  if b = 0 then none else some (a / b)

/-- Model of python's `'{:.Nf}'.format(x)` fixed-precision serialization:
the integer obtained by rounding `x * 10^d`.  (Python rounds ties to even;
the tie-breaking convention is irrelevant to the claims proved here.) -/
def round_to (d : ℕ) (q : ℚ) : ℤ :=
  round (q * 10 ^ d)

/-- Expression AST modelling the source's RooFit-style expression strings
(`'pow(1 - @0/1000, @1) * ...'`).  `var i` is the positional parameter
`@i`; parameter 0 is always the independent variable (mT).  The source
evaluates these strings with a restricted `eval` providing `pow`, `log`,
`sqrt`, `exp`; only the arithmetic fragment needed by the claims is carried
here (transcendental calls produce irrational values outside the rational
model and play no role in any claim). -/
inductive Expr where
  | const : ℚ → Expr
  | var : ℕ → Expr
  | add : Expr → Expr → Expr
  | sub : Expr → Expr → Expr
  | mul : Expr → Expr → Expr
  | div : Expr → Expr → Expr
  | pow : Expr → Expr → Expr
deriving DecidableEq, Repr

/-- Effectful map over a list in the Option monad (numpy's elementwise
evaluation with non-finite propagation: the whole vector is `none` as soon
as one entry is). -/
def map_option {A B : Type} (f : A → Option B) : List A → Option (List B)
  | [] => some []
  | a :: t => do
      let b ← f a
      let bs ← map_option f t
      some (b :: bs)

/-- Model of `eval_expression(expression, pars)`: evaluate with the given
parameter list, parameter 0 first.  A reference to a parameter index that
is not supplied is the source's `NameError` path (re-raised, the spec's
`UnboundParameterError`), modelled as `none`; a division by zero or a
non-integral exponent also yields `none` (non-finite / out of the rational
model). -/
def eval_expression : Expr → List ℚ → Option ℚ
  | .const q, _ => some q
  | .var i, pars => pars.get? i
  | .add a b, pars => do
      let x ← eval_expression a pars
      let y ← eval_expression b pars
      some (x + y)
  | .sub a b, pars => do
      let x ← eval_expression a pars
      let y ← eval_expression b pars
      some (x - y)
  | .mul a b, pars => do
      let x ← eval_expression a pars
      let y ← eval_expression b pars
      some (x * y)
  | .div a b, pars => do
      let x ← eval_expression a pars
      let y ← eval_expression b pars
      num_div x y
  | .pow a b, pars => do
      let x ← eval_expression a pars
      let y ← eval_expression b pars
      if y.den = 1 then
        if x = 0 ∧ y.num < 0 then none else some (x ^ y.num)
      else none

/-- The largest parameter index `@i` referenced by an expression (0 when no
parameter occurs; the source's `max` over regex matches crashes on an
expression with no `@`, a case no claim touches). -/
def max_var : Expr → ℕ
  | .const _ => 0
  | .var i => i
  | .add a b => max (max_var a) (max_var b)
  | .sub a b => max (max_var a) (max_var b)
  | .mul a b => max (max_var a) (max_var b)
  | .div a b => max (max_var a) (max_var b)
  | .pow a b => max (max_var a) (max_var b)

/-- Model of `count_parameters(expr)`: highest `@i` plus one. -/
def count_parameters (e : Expr) : ℕ :=
  max_var e + 1

/-- Model of the output of `th1_to_hist(h)`: bin edges (`binning`, length
n+1), bin contents (`vals`, length n) and bin errors (`errs`, length n). -/
structure Hist where
  binning : List ℚ
  vals : List ℚ
  errs : List ℚ
deriving DecidableEq, Repr

/-- Bin centers, `[.5*(l+r) for l, r in zip(binning[:-1], binning[1:])]`. -/
def bin_centers (h : Hist) : List ℚ :=
  List.zipWith (fun l r => (l + r) / 2) h.binning.dropLast h.binning.tail

/-- Model of the function returned by `build_rss(expr, th1)`: evaluate the
expression at the bin centers (bin center inserted as parameter 0), rescale
the curve by `vals.sum / y_pdf.sum` (unguarded division), and return the
square root of the summed squared residuals.  The square root is an
external numeric routine (`np.sqrt`), passed in as `sqrt_fn`. -/
def build_rss (sqrt_fn : ℚ → ℚ) (expr : Expr) (h : Hist) (parameters : List ℚ) :
    Option ℚ := do
  let y_pdf ← map_option (fun c => eval_expression expr (c :: parameters)) (bin_centers h)
  let y_norm ← map_option (fun y => num_div y y_pdf.sum) y_pdf
  let y_scaled := y_norm.map (fun y => y * h.vals.sum)
  some (sqrt_fn (List.zipWith (fun v y => (v - y) ^ 2) h.vals y_scaled).sum)

/-- Model of the function returned by `build_chi2(expr, h)`: same unguarded
rescaling as `build_rss`, then `sum((vals - y_pdf)^2 / y_pdf)` with a
per-bin (also unguarded) division. -/
def build_chi2 (expr : Expr) (h : Hist) (parameters : List ℚ) : Option ℚ := do
  let y_pdf ← map_option (fun c => eval_expression expr (c :: parameters)) (bin_centers h)
  let y_norm ← map_option (fun y => num_div y y_pdf.sum) y_pdf
  let y_scaled := y_norm.map (fun y => y * h.vals.sum)
  let terms ← map_option (fun p => num_div ((p.1 - p.2) ^ 2) p.2) (List.zip h.vals y_scaled)
  some terms.sum

/-- Model of the normalization at the end of `PDF.evaluate`: the raw curve
`y` is divided by `y.sum() if y.sum()!=0. else 1.` — this is the one place
in the source that guards the zero-sum case. -/
def pdf_evaluate_normalize (y : List ℚ) : Option (List ℚ) :=
  map_option (fun v => num_div v (if y.sum = 0 then 1 else y.sum)) y

/-- Follows the spec's words (§4.2 edge case), for comparison with
`build_rss`: "if the evaluated model sums to zero, scaling is skipped
(treated as scale factor 1)". -/
def build_rss_specmodel (sqrt_fn : ℚ → ℚ) (expr : Expr) (h : Hist)
    (parameters : List ℚ) : Option ℚ := do
  let y_pdf ← map_option (fun c => eval_expression expr (c :: parameters)) (bin_centers h)
  let y_scaled ←
    if y_pdf.sum = 0 then some y_pdf
    else map_option (fun y => (num_div y y_pdf.sum).map (fun z => z * h.vals.sum)) y_pdf
  some (sqrt_fn (List.zipWith (fun v y => (v - y) ^ 2) h.vals y_scaled).sum)

/-- Follows the spec's words (§4.2 edge case), for comparison with
`build_chi2`: scaling skipped when the curve sums to zero. -/
def build_chi2_specmodel (expr : Expr) (h : Hist) (parameters : List ℚ) :
    Option ℚ := do
  let y_pdf ← map_option (fun c => eval_expression expr (c :: parameters)) (bin_centers h)
  let y_scaled ←
    if y_pdf.sum = 0 then some y_pdf
    else map_option (fun y => (num_div y y_pdf.sum).map (fun z => z * h.vals.sum)) y_pdf
  let terms ← map_option (fun p => num_div ((p.1 - p.2) ^ 2) p.2) (List.zip h.vals y_scaled)
  some terms.sum

/-- One serialized unit fed to the sha256 object in `make_fit_hash`: the
expression string, a `'{:.5f}'`-formatted float, a `'{:.3f}'`-formatted
float, or a plain string (method / tag).  Two fit requests produce the same
sha256 digest exactly when they feed the same serialized units, so hash
equality is modelled as equality of this token list. -/
inductive HashItem where
  | e : Expr → HashItem
  | f5 : ℤ → HashItem
  | f3 : ℤ → HashItem
  | s : String → HashItem
deriving DecidableEq, Repr

/-- The tokens `add_floats_to_hash(floats)` feeds the digest: each float
serialized as `'{:.5f}'`. -/
def hash_floats5 (l : List ℚ) : List HashItem :=
  l.map (fun v => HashItem.f5 (round_to 5 v))

/-- The initial-value tokens of the fit hash: hashed only when
`init_vals is not None`. -/
def hash_init_tokens : Option (List ℚ) → List HashItem
  | some iv => hash_floats5 iv
  | none => []

/-- The tolerance token of the fit hash: hashed only when `tol` is among
the minimizer kwargs, serialized as `'{:.3f}'` (three decimals, unlike the
five used for the float arrays). -/
def hash_tol_tokens : Option ℚ → List HashItem
  | some t => [HashItem.f3 (round_to 3 t)]
  | none => []

/-- The method token of the fit hash: hashed only when `method` is among
the minimizer kwargs. -/
def hash_method_tokens : Option String → List HashItem
  | some m => [HashItem.s m]
  | none => []

/-- The tag token of the fit hash: `if tag:` (python truthiness — an empty
tag string is skipped). -/
def hash_tag_tokens : Option String → List HashItem
  | some t => if t = "" then [] else [HashItem.s t]
  | none => []

/-- Model of `make_fit_hash(expression, th1, init_vals, tag, **minimize_kwargs)`:
hashes, in order, the expression, the histogram binning and values (not the
errors) at 5-decimal precision, the initial values (when given) at
5-decimal precision, then `tol` at 3-decimal precision and `method` when
present in the minimizer kwargs, and finally the tag. -/
def make_fit_hash (expression : Expr) (hist : Hist) (init_vals : Option (List ℚ))
    (tag : Option String) (tol : Option ℚ) (method : Option String) :
    List HashItem :=
  [HashItem.e expression]
    ++ hash_floats5 hist.binning
    ++ hash_floats5 hist.vals
    ++ hash_init_tokens init_vals
    ++ hash_tol_tokens tol
    ++ hash_method_tokens method
    ++ hash_tag_tokens tag

/-- Model of a scipy `OptimizeResult` as used by the source: solution
vector `x`, objective value `res.fun` (here `fun_val`, a possibly
non-finite float) and the convergence flag `success`.  The bookkeeping
attributes the source attaches (`x_init`, `expression`, `hash`) play no
role in any claim and are omitted. -/
structure MinimizeResult where
  x : List ℚ
  fun_val : FloatVal
  success : Bool
deriving DecidableEq, Repr

instance : Inhabited MinimizeResult := ⟨⟨[], FloatVal.nan, false⟩⟩

/-- The external `scipy.optimize.minimize` collaborator, abstracted over
(method, tol, initial values).  The chi-square objective the source builds
and hands to scipy is absorbed into this abstraction (the spec lists the
optimizer library as an excluded collaborator). -/
abbrev Minimizer := Option String → Option ℚ → List ℚ → MinimizeResult

/-- Modelled from the spec (§4.1): the persistent Fit Cache contract
`get(hash) -> Result|absent`, `write(hash, result) -> void`; the backing
store (`fit_cache.FitCache`, not under src/) is a file-backed key-value
store.  A write prepends, so `get` sees the newest entry for a hash. -/
structure FitCache where
  entries : List (List HashItem × MinimizeResult)
deriving DecidableEq, Repr

/-- Modelled from the spec (§4.1): `get(hash)` returns the stored result
for the hash, or absent. -/
def FitCache.get (c : FitCache) (h : List HashItem) : Option MinimizeResult :=
  (c.entries.find? (fun p => decide (p.1 = h))).map (fun p => p.2)

/-- Modelled from the spec (§4.1): `write(hash, result)` persists the
entry. -/
def FitCache.write (c : FitCache) (h : List HashItem) (r : MinimizeResult) :
    FitCache :=
  ⟨(h, r) :: c.entries⟩

/-- Model of `single_fit_scipy(expression, histogram, init_vals, cache,
**minimize_args)`: compute the fit hash, return the cached result
unchanged when the cache is given and holds the hash, otherwise run the
minimizer (defaulting the initial values to all ones) and, when a cache is
given, write the result back under the hash.  Returns the result together
with the updated cache (the source mutates the cache object in place). -/
def single_fit_scipy (minimize : Minimizer) (expression : Expr) (histogram : Hist)
    (init_vals : Option (List ℚ)) (cache : Option FitCache)
    (tol : Option ℚ) (method : Option String) :
    MinimizeResult × Option FitCache :=
  let fit_hash := make_fit_hash expression histogram init_vals none tol method
  match cache.bind (fun c => c.get fit_hash) with
  | some r => (r, cache)
  | none =>
    let n_fit_pars := count_parameters expression - 1
    let iv := init_vals.getD (List.replicate n_fit_pars 1)
    let res := minimize method tol iv
    (res, cache.map (fun c => c.write fit_hash res))

/-- The hash `fit_scipy_robust` computes for its own top-level cache entry:
`make_fit_hash(expression, histogram, tag='robust')`. -/
def robust_hash (expression : Expr) (histogram : Hist) : List HashItem :=
  make_fit_hash expression histogram none (some "robust") none none

/-- Phase A of the robust fit: loose-tolerance BFGS
(`tol=1e-3, method='BFGS'`) from the default all-ones start, through the
cache. -/
def phase_a (minimize : Minimizer) (expression : Expr) (histogram : Hist)
    (cache : Option FitCache) : MinimizeResult × Option FitCache :=
  single_fit_scipy minimize expression histogram none cache
    (some (1 / 1000)) (some "BFGS")

/-- Phase B of the robust fit: tight-tolerance Nelder-Mead
(`tol=1e-6, method='Nelder-Mead'`) restarted from phase A's solution,
through the cache. -/
def phase_b (minimize : Minimizer) (expression : Expr) (histogram : Hist)
    (cache : Option FitCache) : MinimizeResult × Option FitCache :=
  let a := phase_a minimize expression histogram cache
  single_fit_scipy minimize expression histogram (some a.1.x) a.2
    (some (1 / 1000000)) (some "Nelder-Mead")

/-- Model of `init_vals = np.array(list(itertools.product(*[[-1., 1.] for i
in range(npars)])))`: every combination of -1 and +1 across `npars`
components, first component varying slowest (itertools.product order). -/
def brute_init_vals : ℕ → List (List ℚ)
  | 0 => [[]]
  | n + 1 =>
      ([-1, 1] : List ℚ).flatMap (fun v => (brute_init_vals n).map (fun c => v :: c))

/-- The two optimizer methods the brute-force fallback loops over. -/
def brute_methods : List String := ["BFGS", "Nelder-Mead"]

/-- The full list of brute-force runs: for each method, a
`single_fit_scipy` with `tol=1e-3` from each sign-combination start.  The
source passes no `cache` argument here, so each run computes afresh. -/
def brute_force_runs (minimize : Minimizer) (expression : Expr) (histogram : Hist) :
    List MinimizeResult :=
  brute_methods.flatMap (fun method =>
    (brute_init_vals (count_parameters expression - 1)).map (fun iv =>
      (single_fit_scipy minimize expression histogram (some iv) none
        (some (1 / 1000)) (some method)).1))

/-- The source's finiteness filter on a brute-force run:
`not(np.isnan(result.fun) or np.isposinf(result.fun) or np.isneginf(result.fun))`. -/
def is_finite_res (r : MinimizeResult) : Bool :=
  !(r.fun_val.isnan || r.fun_val.isposinf || r.fun_val.isneginf)

/-- The brute-force runs that survive the finiteness filter (the source
appends only these to `results`). -/
def brute_force_results (minimize : Minimizer) (expression : Expr)
    (histogram : Hist) : List MinimizeResult :=
  (brute_force_runs minimize expression histogram).filter is_finite_res

/-- Model of `results[np.argmin([r.fun for r in results])]`: the first
result attaining the minimal objective value. -/
def select_min : List MinimizeResult → MinimizeResult
  | [] => default
  | [r] => r
  | r :: s :: rest =>
      let m := select_min (s :: rest)
      if r.fun_val.val ≤ m.fun_val.val then r else m

/-- Model of `fit_scipy_robust(expression, histogram, cache, brute)`: check
the cache under the robust-tag hash; otherwise run the two phases (through
the cache); on phase-B success without forced brute, write the result under
the robust hash and return it; otherwise brute-force over all sign
combinations and both methods (cacheless runs), fail when no run has a
finite objective value, and otherwise write and return the minimal run.
(The source's `cache='auto'` default instantiates the external store; here
the caller supplies the cache.) -/
def fit_scipy_robust (minimize : Minimizer) (expression : Expr) (histogram : Hist)
    (cache : Option FitCache) (brute : Bool) :
    Except String (MinimizeResult × Option FitCache) :=
  let fit_hash := robust_hash expression histogram
  match cache.bind (fun c => c.get fit_hash) with
  | some res => .ok (res, cache)
  | none =>
    let b := phase_b minimize expression histogram cache
    let res := b.1
    if res.success && !brute then
      .ok (res, b.2.map (fun c => c.write fit_hash res))
    else
      let results := brute_force_results minimize expression histogram
      match results with
      | [] => .error "Not a single fit of the brute force converged!"
      | _ :: _ =>
        let best := select_min results
        .ok (best, b.2.map (fun c => c.write fit_hash best))

/-- A candidate model as seen by the Fisher test: only its parameter count
is consulted (`pdf.n_pars`). -/
structure PdfModel where
  n_pars : ℤ
deriving DecidableEq, Repr

/-- A goodness-of-fit record as returned by `get_rss_viaframe` /
`get_chi2_viaframe` (external RooFit evaluation): the scalar statistic and
the number of contributing bins. -/
structure GofRecord where
  gof : ℚ
  n_bins : ℤ
deriving DecidableEq, Repr

/-- Model of the `cl_vals[(i,j)]` computation in `do_fisher_test`:
`f = ((gof1-gof2)/(n2-n1)) / (gof2/(n_bins-n2))` with `n_bins` taken from
model `j`, converted to a confidence via the complementary F-distribution
CDF `1 - FDistI(f, n2-n1, n_bins-n2)`.  `fdist` abstracts the external
`ROOT.TMath.FDistI`. -/
def cl_val (fdist : ℚ → ℤ → ℤ → ℚ) (pdfs : List PdfModel) (gofs : List GofRecord)
    (i j : ℕ) : ℚ :=
  let n1 := (pdfs.getD i ⟨0⟩).n_pars
  let n2 := (pdfs.getD j ⟨0⟩).n_pars
  let gof1 := (gofs.getD i ⟨0, 0⟩).gof
  let gof2 := (gofs.getD j ⟨0, 0⟩).gof
  let n_bins := (gofs.getD j ⟨0, 0⟩).n_bins
  let f := ((gof1 - gof2) / ((n2 : ℚ) - (n1 : ℚ))) / (gof2 / ((n_bins : ℚ) - (n2 : ℚ)))
  1 - fdist f (n2 - n1) (n_bins - n2)

/-- Model of `get_winner(i, j)` inside `do_fisher_test`: raises for
`i >= j`, else the lower-complexity model `i` wins exactly when the
confidence exceeds the significance threshold `a_crit` (source default
`.07`), and `j` wins otherwise. -/
def get_winner (fdist : ℚ → ℤ → ℤ → ℚ) (pdfs : List PdfModel)
    (gofs : List GofRecord) (a_crit : ℚ) (i j : ℕ) : Except String ℕ :=
  if i ≥ j then .error "i must be smaller than j"
  else if cl_val fdist pdfs gofs i j > a_crit then .ok i
  else .ok j

/-- Model of `do_fisher_test(mt, data, pdfs, a_crit, gof_type)`: compute a
goodness-of-fit record per model (`gof_fn` abstracts the external
`get_*_viaframe`), then reduce: `winner = get_winner(0,1)`, then
`winner = get_winner(winner, i)` for `i` in `range(2, len(pdfs))`. -/
def do_fisher_test (fdist : ℚ → ℤ → ℤ → ℚ) (gof_fn : PdfModel → GofRecord)
    (pdfs : List PdfModel) (a_crit : ℚ) : Except String ℕ := do
  let gofs := pdfs.map gof_fn
  let w0 ← get_winner fdist pdfs gofs a_crit 0 1
  (List.range' 2 (pdfs.length - 2)).foldlM (get_winner fdist pdfs gofs a_crit) w0

/-- The pure pairwise decision for `i < j` (the branch `get_winner` takes
when it does not raise). -/
def winner_of (fdist : ℚ → ℤ → ℤ → ℚ) (pdfs : List PdfModel)
    (gofs : List GofRecord) (a_crit : ℚ) (i j : ℕ) : ℕ :=
  if cl_val fdist pdfs gofs i j > a_crit then i else j

/-- Follows the spec's words (§4.5 step 4): start with
`winner(model_0, model_1)`, then repeatedly update the running winner
against the next model in complexity order. -/
def fisher_sequential_winner (fdist : ℚ → ℤ → ℤ → ℚ) (pdfs : List PdfModel)
    (gofs : List GofRecord) (a_crit : ℚ) : ℕ :=
  (List.range' 2 (pdfs.length - 2)).foldl (winner_of fdist pdfs gofs a_crit)
    (winner_of fdist pdfs gofs a_crit 0 1)

/-- Model of the per-parameter bound-adjustment block in `fit_roofit`
(applied to each parameter before the RooFit likelihood fit): given the
seed `value`, the parameter's current bounds `(left, right)` and the
family's declared `max_range` and `min_range` for the parameter, first
widen the violated side to `value -+ 10*abs(value)` (clipped to
`max_range`), then — testing against the original bounds — if
`abs(value) / (min(abs(left), abs(right)) + 1e-10) < 0.1`, overwrite both
bounds with `-+10*abs(value)` (expanded to `min_range`). -/
def adjust_bounds (value left right : ℚ) (max_range min_range : Option ℚ × Option ℚ) :
    ℚ × ℚ :=
  let widened : ℚ × ℚ :=
    if value < left then
      let new_left := value - 10 * |value|
      let new_left :=
        match max_range.1 with
        | some m => max new_left m
        | none => new_left
      (new_left, right)
    else if value > right then
      let new_right := value + 10 * |value|
      let new_right :=
        match max_range.2 with
        | some m => min new_right m
        | none => new_right
      (left, new_right)
    else (left, right)
  let eps : ℚ := 1 / 10 ^ 10
  if |value| / (min |left| |right| + eps) < 1 / 10 then
    let new_left := -10 * |value|
    let new_right := 10 * |value|
    let new_left :=
      match min_range.1 with
      | some m => min new_left m
      | none => new_left
    let new_right :=
      match min_range.2 with
      | some m => max new_right m
      | none => new_right
    (new_left, new_right)
  else widened

/-- Concrete one-fit-parameter expression used by witnesses: `@1` (the
single fit parameter; `@0` is the independent variable). -/
def e0 : Expr := Expr.var 1

/-- Concrete one-bin histogram used by witnesses. -/
def h0 : Hist := ⟨[0, 1], [5], [1]⟩

/-- The same histogram as `h0` but with different bin errors. -/
def h0errs : Hist := ⟨[0, 1], [5], [7]⟩

/-- Concrete two-bin histogram whose bin centers are -1 and 1, so the
identity curve `@0` sums to zero over them. -/
def h4 : Hist := ⟨[-2, 0, 2], [3, 4], [1, 1]⟩

/-- Concrete minimizer stub used by witnesses: echoes the initial values
with objective value 1 and no convergence. -/
def M0 : Minimizer := fun _ _ iv => ⟨iv, FloatVal.finite 1, false⟩

/-- Concrete minimizer stub whose every run yields a NaN objective. -/
def Mnan : Minimizer := fun _ _ iv => ⟨iv, FloatVal.nan, false⟩

/-- A distinctive cached fit result with objective value 0. -/
def Rc : MinimizeResult := ⟨[42], FloatVal.finite 0, true⟩

/-- A cache holding `Rc` under exactly the hash that the brute-force run
(method BFGS, start [-1], tol 1e-3) of `e0` over `h0` would use. -/
def C0 : FitCache :=
  ⟨[(make_fit_hash e0 h0 (some [-1]) none (some (1 / 1000)) (some "BFGS"), Rc)]⟩

/-- Concrete F-distribution CDF stub (constant zero) used by witnesses. -/
def fdist0 : ℚ → ℤ → ℤ → ℚ := fun _ _ _ => 0

/-- Concrete goodness-of-fit assignment used by witnesses: the statistic is
the parameter count, over 50 bins. -/
def gof_fn_w (p : PdfModel) : GofRecord := ⟨(p.n_pars : ℚ), 50⟩

/-- For `i < j`, `get_winner` does not raise and returns the pure pairwise
decision. -/
theorem get_winner_ok_of_lt (fdist : ℚ → ℤ → ℤ → ℚ) (pdfs : List PdfModel)
    (gofs : List GofRecord) (a_crit : ℚ) {i j : ℕ} (hij : i < j) :
    get_winner fdist pdfs gofs a_crit i j =
      .ok (winner_of fdist pdfs gofs a_crit i j) := by
  unfold get_winner winner_of
  rw [if_neg (by omega : ¬ i ≥ j)]
  split <;> rfl

/-- The pairwise decision picks one of its two arguments. -/
theorem winner_of_eq_or (fdist : ℚ → ℤ → ℤ → ℚ) (pdfs : List PdfModel)
    (gofs : List GofRecord) (a_crit : ℚ) (i j : ℕ) :
    winner_of fdist pdfs gofs a_crit i j = i ∨
      winner_of fdist pdfs gofs a_crit i j = j := by
  unfold winner_of
  split
  · exact Or.inl rfl
  · exact Or.inr rfl

/-- The effectful reduction over `range(s, s+n)` never raises when the
running winner stays below the next index, and agrees with the pure fold. -/
theorem foldlM_get_winner (fdist : ℚ → ℤ → ℤ → ℚ) (pdfs : List PdfModel)
    (gofs : List GofRecord) (a_crit : ℚ) :
    ∀ (n s w : ℕ), w < s →
      (List.range' s n).foldlM (get_winner fdist pdfs gofs a_crit) w =
        .ok ((List.range' s n).foldl (winner_of fdist pdfs gofs a_crit) w) := by
  intro n
  induction n with
  | zero => intro s w _; rfl
  | succ n ih =>
    intro s w hw
    rw [List.range'_succ, List.foldlM_cons, List.foldl_cons,
      get_winner_ok_of_lt fdist pdfs gofs a_crit hw]
    show (List.range' (s + 1) n).foldlM (get_winner fdist pdfs gofs a_crit)
        (winner_of fdist pdfs gofs a_crit w s) = _
    refine ih (s + 1) _ ?_
    rcases winner_of_eq_or fdist pdfs gofs a_crit w s with h | h <;> omega

/-- C1: For every ordered pair of already-fit models (i,j) with i<j, the
pairwise winner function returns i exactly when the confidence value
`1 - FDistCDF(F, k_j-k_i, bins-k_j)` exceeds the significance threshold,
and returns j otherwise, with
`F = ((gof_i - gof_j)/(k_j - k_i)) / (gof_j/(bins - k_j))`, k the model's
parameter count, gof its goodness-of-fit statistic, and bins the
contributing bin count of model j. -/
theorem c1_pairwise_winner_rule (fdist : ℚ → ℤ → ℤ → ℚ) (pdfs : List PdfModel)
    (gofs : List GofRecord) (a_crit : ℚ) (i j : ℕ) (hij : i < j)
    (_hj : j < pdfs.length) :
    get_winner fdist pdfs gofs a_crit i j =
      .ok (if 1 - fdist
              ((((gofs.getD i ⟨0, 0⟩).gof - (gofs.getD j ⟨0, 0⟩).gof) /
                  (((pdfs.getD j ⟨0⟩).n_pars : ℚ) - ((pdfs.getD i ⟨0⟩).n_pars : ℚ))) /
                ((gofs.getD j ⟨0, 0⟩).gof /
                  (((gofs.getD j ⟨0, 0⟩).n_bins : ℚ) - ((pdfs.getD j ⟨0⟩).n_pars : ℚ))))
              ((pdfs.getD j ⟨0⟩).n_pars - (pdfs.getD i ⟨0⟩).n_pars)
              ((gofs.getD j ⟨0, 0⟩).n_bins - (pdfs.getD j ⟨0⟩).n_pars) > a_crit
            then i else j) := by
  unfold get_winner cl_val
  rw [if_neg (by omega : ¬ i ≥ j)]
  split <;> rfl

/-- Witness for C1 at a concrete input: two models with 2 and 3 parameters,
goodness-of-fit 10 and 9 over 50 bins, and a constant-zero F-distribution
CDF, so the confidence 1 exceeds 0.07 and the simpler model 0 wins. -/
theorem c1_pairwise_winner_rule_witness :
    (0 : ℕ) < 1 ∧ 1 < ([⟨2⟩, ⟨3⟩] : List PdfModel).length ∧
      get_winner fdist0 [⟨2⟩, ⟨3⟩] [⟨10, 50⟩, ⟨9, 50⟩] (7 / 100) 0 1 =
        .ok 0 :=
  ⟨by decide, by decide, by
    rw [c1_pairwise_winner_rule fdist0 [⟨2⟩, ⟨3⟩] [⟨10, 50⟩, ⟨9, 50⟩]
      (7 / 100) 0 1 (by decide) (by decide)]
    simp only [Except.ok.injEq]
    norm_num [fdist0]⟩

/-- C9: For every pair of indices (i,j) with i >= j, invoking the pairwise
winner comparison raises (the spec's `OrderingViolationError`; the source
raises `Exception('i must be smaller than j')`) and never returns a
winner. -/
theorem c9_ordering_violation (fdist : ℚ → ℤ → ℤ → ℚ) (pdfs : List PdfModel)
    (gofs : List GofRecord) (a_crit : ℚ) (i j : ℕ) (hij : i ≥ j) :
    get_winner fdist pdfs gofs a_crit i j = .error "i must be smaller than j" := by
  unfold get_winner
  rw [if_pos hij]

/-- Witness for C9 at a concrete input: comparing model 1 with itself
raises. -/
theorem c9_ordering_violation_witness :
    (1 : ℕ) ≥ 1 ∧
      get_winner fdist0 [⟨2⟩, ⟨3⟩] [⟨10, 50⟩, ⟨9, 50⟩] (7 / 100) 1 1 =
        .error "i must be smaller than j" :=
  ⟨by decide,
    c9_ordering_violation fdist0 [⟨2⟩, ⟨3⟩] [⟨10, 50⟩, ⟨9, 50⟩]
      (7 / 100) 1 1 (by decide)⟩

/-- C3: For every list of two or more already-fit models ordered by
increasing complexity, the Fisher test selects its winner by the greedy
sequential reduction: the running winner starts as winner(model 0, model 1)
and is repeatedly updated against each subsequent model in order; the final
running winner is the selected model (and no ordering error is raised). -/
theorem c3_greedy_sequential_reduction (fdist : ℚ → ℤ → ℤ → ℚ)
    (gof_fn : PdfModel → GofRecord) (pdfs : List PdfModel) (a_crit : ℚ)
    (_h2 : 2 ≤ pdfs.length) :
    do_fisher_test fdist gof_fn pdfs a_crit =
      .ok (fisher_sequential_winner fdist pdfs (pdfs.map gof_fn) a_crit) := by
  unfold do_fisher_test fisher_sequential_winner
  simp only [get_winner_ok_of_lt fdist pdfs (pdfs.map gof_fn) a_crit Nat.one_pos]
  show (List.range' 2 (pdfs.length - 2)).foldlM
      (get_winner fdist pdfs (pdfs.map gof_fn) a_crit)
      (winner_of fdist pdfs (pdfs.map gof_fn) a_crit 0 1) = _
  refine foldlM_get_winner fdist pdfs (pdfs.map gof_fn) a_crit _ 2 _ ?_
  rcases winner_of_eq_or fdist pdfs (pdfs.map gof_fn) a_crit 0 1 with h | h <;> omega

/-- Witness for C3 at a concrete input: three models; with a constant-zero
F-distribution CDF every confidence is 1, so the simplest model 0 survives
the whole reduction. -/
theorem c3_greedy_sequential_reduction_witness :
    2 ≤ ([⟨2⟩, ⟨3⟩, ⟨4⟩] : List PdfModel).length ∧
      do_fisher_test fdist0 gof_fn_w [⟨2⟩, ⟨3⟩, ⟨4⟩] (7 / 100) = .ok 0 :=
  ⟨by decide, by
    rw [c3_greedy_sequential_reduction fdist0 gof_fn_w
      [⟨2⟩, ⟨3⟩, ⟨4⟩] (7 / 100) (by decide)]
    simp only [Except.ok.injEq]
    norm_num [fisher_sequential_winner, winner_of, cl_val, List.range', gof_fn_w,
      fdist0]⟩

/-- C7 counterexample: a seed of 1 against current bounds (20, 30) with no
family-level ranges lies below the lower bound, so per the claim the lower
bound should become `1 - 10*|1| = -9` and the upper bound stay 30; the code
instead also fires the needlessly-wide-range heuristic
(`|1|/(min(20,30)+1e-10) < 0.1`) and overwrites both bounds, yielding
(-10, 10). -/
theorem c7_counterexample :
    adjust_bounds 1 20 30 (none, none) (none, none) = (-10, 10) ∧
      adjust_bounds 1 20 30 (none, none) (none, none) ≠ (1 - 10 * |(1 : ℚ)|, 30) := by
  norm_num [adjust_bounds]

/-- C7 (amended): provided the needlessly-wide-range shrink heuristic does
not fire (`|seed| / (min(|lo|,|hi|) + 1e-10) >= 0.1` against the original
bounds), a seed above the upper bound sets the upper bound to
`seed + 10*|seed|` (clipped from above by the family's hard maximum when
declared) and leaves the lower bound unchanged, and symmetrically for a
seed below the lower bound; when the shrink heuristic also fires, both
bounds are instead overwritten with `-+10*|seed|` expanded to the family
minimum range. -/
theorem c7_bound_widening (value left right : ℚ)
    (max_range min_range : Option ℚ × Option ℚ) (hlr : left ≤ right)
    (hsmall : ¬ (|value| / (min |left| |right| + 1 / 10 ^ 10) < 1 / 10)) :
    (right < value →
      adjust_bounds value left right max_range min_range =
        (left, match max_range.2 with
               | some m => min (value + 10 * |value|) m
               | none => value + 10 * |value|)) ∧
    (value < left →
      adjust_bounds value left right max_range min_range =
        ((match max_range.1 with
          | some m => max (value - 10 * |value|) m
          | none => value - 10 * |value|), right)) := by
  unfold adjust_bounds
  constructor
  · intro h
    rw [if_neg hsmall, if_neg (by linarith : ¬ value < left),
      if_pos (by linarith : value > right)]
  · intro h
    rw [if_neg hsmall, if_pos h]

/-- Witness for C7 (amended) at the spec's own test vector: seed 15 with
bounds (-10, 10) and no family ranges widens the right bound to
`15 + 10*15 = 165` and leaves the left bound at -10. -/
theorem c7_bound_widening_witness :
    (-10 : ℚ) ≤ 10 ∧
      ¬ (|(15 : ℚ)| / (min |(-10 : ℚ)| |(10 : ℚ)| + 1 / 10 ^ 10) < 1 / 10) ∧
      (10 : ℚ) < 15 ∧
      adjust_bounds 15 (-10) 10 (none, none) (none, none) = (-10, 165) :=
  ⟨by norm_num, by norm_num, by norm_num, by
    rw [(c7_bound_widening 15 (-10) 10 (none, none) (none, none) (by norm_num)
      (by norm_num)).1 (by norm_num)]
    norm_num⟩

/-- Two float lists agreeing after 5-decimal serialization feed identical
tokens to the hash. -/
theorem hash_floats5_congr (l l' : List ℚ)
    (hl : l.map (round_to 5) = l'.map (round_to 5)) :
    hash_floats5 l = hash_floats5 l' := by
  have := congrArg (List.map HashItem.f5) hl
  simpa [hash_floats5, List.map_map, Function.comp] using this

/-- C10: For every two fit requests whose histograms have identical binning
and identical bin values but (possibly) different bin errors, and whose
expression, initial values, minimizer options and tag are equal, the
fit-hash function produces the same hash: bin errors have no influence on
the cache key. -/
theorem c10_bin_errors_not_hashed (e : Expr) (h1 h2 : Hist)
    (iv : Option (List ℚ)) (tag : Option String) (tol : Option ℚ)
    (m : Option String) (hb : h1.binning = h2.binning)
    (hv : h1.vals = h2.vals) :
    make_fit_hash e h1 iv tag tol m = make_fit_hash e h2 iv tag tol m := by
  unfold make_fit_hash
  rw [hb, hv]

/-- Witness for C10 at a concrete input: `h0` and `h0errs` differ only in
their bin errors, and their fit hashes coincide. -/
theorem c10_bin_errors_not_hashed_witness :
    h0.binning = h0errs.binning ∧ h0.vals = h0errs.vals ∧
      h0.errs ≠ h0errs.errs ∧
      make_fit_hash e0 h0 (some [1]) none (some (1 / 1000)) (some "BFGS") =
        make_fit_hash e0 h0errs (some [1]) none (some (1 / 1000)) (some "BFGS") :=
  ⟨rfl, rfl, by norm_num [h0, h0errs],
    c10_bin_errors_not_hashed e0 h0 h0errs (some [1]) none (some (1 / 1000))
      (some "BFGS") rfl rfl⟩

/-- C6 counterexample: two fit requests identical in every input except the
tolerance option, with tolerances `0.0014999` and `0.0015001` that agree
after rounding to 5 decimal places (both serialize to `0.00150`); because
the source serializes `tol` with `'{:.3f}'` (three decimals, giving `0.001`
and `0.002`), the two hashes differ, contradicting the claim that all
numeric inputs are serialized at 5-decimal precision. -/
theorem c6_counterexample :
    round_to 5 (14999 / 10 ^ 7) = round_to 5 (15001 / 10 ^ 7) ∧
      make_fit_hash e0 h0 (some [1]) none (some (14999 / 10 ^ 7)) (some "BFGS") ≠
        make_fit_hash e0 h0 (some [1]) none (some (15001 / 10 ^ 7)) (some "BFGS") := by
  have A : make_fit_hash e0 h0 (some [1]) none (some (14999 / 10 ^ 7)) (some "BFGS") =
      [HashItem.e e0, HashItem.f5 0, HashItem.f5 100000, HashItem.f5 500000,
        HashItem.f5 100000, HashItem.f3 1, HashItem.s "BFGS"] := by
    norm_num [make_fit_hash, hash_floats5, hash_init_tokens, hash_tol_tokens,
      hash_method_tokens, hash_tag_tokens, h0, round_to, round_eq]
  have B : make_fit_hash e0 h0 (some [1]) none (some (15001 / 10 ^ 7)) (some "BFGS") =
      [HashItem.e e0, HashItem.f5 0, HashItem.f5 100000, HashItem.f5 500000,
        HashItem.f5 100000, HashItem.f3 2, HashItem.s "BFGS"] := by
    norm_num [make_fit_hash, hash_floats5, hash_init_tokens, hash_tol_tokens,
      hash_method_tokens, hash_tag_tokens, h0, round_to, round_eq]
  refine ⟨by norm_num [round_to, round_eq], ?_⟩
  rw [A, B]
  decide

/-- C6 (amended): the fit hash serializes the histogram binning, bin values
and initial values at fixed 5-decimal precision and the tolerance option at
fixed 3-decimal precision, so two fit requests with the same expression,
method and tag whose binning, values and initial values agree after
rounding to 5 decimal places and whose tolerance agrees after rounding to
3 decimal places produce the identical hash. -/
theorem c6_hash_precision_stability (e : Expr) (h1 h2 : Hist)
    (iv1 iv2 : Option (List ℚ)) (tol1 tol2 : Option ℚ) (m tag : Option String)
    (hb : h1.binning.map (round_to 5) = h2.binning.map (round_to 5))
    (hv : h1.vals.map (round_to 5) = h2.vals.map (round_to 5))
    (hiv : iv1.map (List.map (round_to 5)) = iv2.map (List.map (round_to 5)))
    (htol : tol1.map (round_to 3) = tol2.map (round_to 3)) :
    make_fit_hash e h1 iv1 tag tol1 m = make_fit_hash e h2 iv2 tag tol2 m := by
  have hIV : hash_init_tokens iv1 = hash_init_tokens iv2 := by
    cases iv1 with
    | none =>
      cases iv2 with
      | none => rfl
      | some l => exact absurd hiv (by simp)
    | some l1 =>
      cases iv2 with
      | none => exact absurd hiv (by simp)
      | some l2 =>
        simp only [hash_init_tokens]
        exact hash_floats5_congr _ _ (Option.some.inj hiv)
  have hT : hash_tol_tokens tol1 = hash_tol_tokens tol2 := by
    cases tol1 with
    | none =>
      cases tol2 with
      | none => rfl
      | some t => exact absurd htol (by simp)
    | some t1 =>
      cases tol2 with
      | none => exact absurd htol (by simp)
      | some t2 =>
        simp only [hash_tol_tokens]
        rw [Option.some.inj htol]
  unfold make_fit_hash
  rw [hash_floats5_congr _ _ hb, hash_floats5_congr _ _ hv, hIV, hT]

/-- Witness for C6 (amended) at a concrete input: tolerances `0.0010001`
and `0.0009999` agree at 3 decimals and initial values `1.000001` and
`0.9999999` agree at 5 decimals, so the hashes coincide. -/
theorem c6_hash_precision_stability_witness :
    (h0.binning.map (round_to 5) = h0.binning.map (round_to 5)) ∧
      ((some [(1000001 : ℚ) / 1000000]).map (List.map (round_to 5)) =
        (some [(9999999 : ℚ) / 10000000]).map (List.map (round_to 5))) ∧
      ((some ((10001 : ℚ) / 10000000)).map (round_to 3) =
        (some ((9999 : ℚ) / 10000000)).map (round_to 3)) ∧
      make_fit_hash e0 h0 (some [1000001 / 1000000]) none
          (some (10001 / 10000000)) (some "BFGS") =
        make_fit_hash e0 h0 (some [9999999 / 10000000]) none
          (some (9999 / 10000000)) (some "BFGS") :=
  ⟨rfl, by norm_num [round_to, round_eq], by norm_num [round_to, round_eq],
    c6_hash_precision_stability e0 h0 h0 (some [1000001 / 1000000])
      (some [9999999 / 10000000]) (some (10001 / 10000000))
      (some (9999 / 10000000)) (some "BFGS") none rfl rfl
      (by norm_num [round_to, round_eq]) (by norm_num [round_to, round_eq])⟩

/-- Mapping a division with a nonzero denominator over a list always
succeeds. -/
theorem map_option_num_div_isSome (l : List ℚ) (d : ℚ) (hd : d ≠ 0) :
    (map_option (fun v => num_div v d) l).isSome = true := by
  induction l with
  | nil => rfl
  | cons a t ih =>
    cases hmt : map_option (fun v => num_div v d) t with
    | none => rw [hmt] at ih; simp at ih
    | some bs =>
      simp only [map_option]
      rw [hmt]
      simp [num_div, if_neg hd]

/-- C4 counterexample: with the curve `@0` (the independent variable) over
the histogram `h4` (bin centers -1 and 1) the evaluated model sums to zero;
the claim says the objectives then skip the rescaling (scale factor 1) and
never divide by zero, which would give RSS `sqrt(25)` and chi-square `-7`
(the spec-modelled guarded objectives); the source objectives instead
divide by the zero sum and produce a non-finite value (`none`). -/
theorem c4_counterexample :
    build_rss id (Expr.var 0) h4 [] = none ∧
      build_chi2 (Expr.var 0) h4 [] = none ∧
      build_rss_specmodel id (Expr.var 0) h4 [] = some 25 ∧
      build_chi2_specmodel (Expr.var 0) h4 [] = some (-7) := by
  refine ⟨?_, ?_, ?_, ?_⟩
  · norm_num [build_rss, bin_centers, h4, eval_expression, num_div, map_option]
  · norm_num [build_chi2, bin_centers, h4, eval_expression, num_div, map_option]
  · norm_num [build_rss_specmodel, bin_centers, h4, eval_expression, num_div,
      map_option]
  · norm_num [build_chi2_specmodel, bin_centers, h4, eval_expression, num_div,
      map_option, List.zip]

/-- C4 (amended): the zero-sum guard lives in `PDF.evaluate`'s
normalization — which never divides by zero (its division always
succeeds) — while the RSS and chi-square objective builders rescale with an
unguarded division, so any parameter vector whose evaluated curve is
nonempty and sums to zero makes both objectives non-finite (`none`). -/
theorem c4_zero_sum_guard_location :
    (∀ y : List ℚ, (pdf_evaluate_normalize y).isSome = true) ∧
      (∀ (sqrt_fn : ℚ → ℚ) (e : Expr) (h : Hist) (pars ys : List ℚ),
        map_option (fun c => eval_expression e (c :: pars)) (bin_centers h) =
          some ys →
        ys.sum = 0 → ys ≠ [] →
        build_rss sqrt_fn e h pars = none ∧ build_chi2 e h pars = none) := by
  constructor
  · intro y
    unfold pdf_evaluate_normalize
    refine map_option_num_div_isSome y _ ?_
    split
    · exact one_ne_zero
    · assumption
  · intro sqrt_fn e h pars ys hmap hsum hne
    obtain ⟨a, t, rfl⟩ := List.exists_cons_of_ne_nil hne
    constructor
    · unfold build_rss
      rw [hmap]
      simp [Option.bind, hsum, map_option, num_div]
    · unfold build_chi2
      rw [hmap]
      simp [Option.bind, hsum, map_option, num_div]

/-- Witness for C4 (amended) at concrete inputs: the guarded normalization
succeeds on `[2, -2]`, and the objectives over `h4` with the curve `@0`
(which evaluates to `[-1, 1]`, nonempty with sum zero) are both
non-finite. -/
theorem c4_zero_sum_guard_location_witness :
    (pdf_evaluate_normalize [2, -2]).isSome = true ∧
      build_rss id (Expr.var 0) h4 [] = none ∧
      build_chi2 (Expr.var 0) h4 [] = none :=
  ⟨c4_zero_sum_guard_location.1 [2, -2],
    (c4_zero_sum_guard_location.2 id (Expr.var 0) h4 [] [-1, 1]
      (by norm_num [bin_centers, h4, eval_expression, map_option])
      (by norm_num) (by simp)).1,
    (c4_zero_sum_guard_location.2 id (Expr.var 0) h4 [] [-1, 1]
      (by norm_num [bin_centers, h4, eval_expression, map_option])
      (by norm_num) (by simp)).2⟩

/-- The brute-force start list has exactly 2^n entries. -/
theorem brute_init_vals_length (n : ℕ) : (brute_init_vals n).length = 2 ^ n := by
  induction n with
  | zero => rfl
  | succ n ih =>
    simp only [brute_init_vals, List.flatMap_cons, List.flatMap_nil,
      List.length_append, List.length_map, List.length_nil, ih]
    omega

/-- The brute-force start list holds exactly the length-n vectors over
{-1, +1}. -/
theorem brute_init_vals_mem (n : ℕ) : ∀ v : List ℚ,
    v ∈ brute_init_vals n ↔ (v.length = n ∧ ∀ x ∈ v, x = -1 ∨ x = 1) := by
  induction n with
  | zero =>
    intro v
    constructor
    · intro hv
      simp only [brute_init_vals, List.mem_singleton] at hv
      subst hv
      simp
    · rintro ⟨hl, _⟩
      rw [List.length_eq_zero] at hl
      subst hl
      simp [brute_init_vals]
  | succ n ih =>
    intro v
    constructor
    · intro hv
      simp only [brute_init_vals, List.mem_flatMap, List.mem_map] at hv
      obtain ⟨a, ha, w, hw, rfl⟩ := hv
      obtain ⟨hwl, hwall⟩ := (ih w).mp hw
      refine ⟨by simp [hwl], ?_⟩
      intro x hx
      rcases List.mem_cons.mp hx with rfl | hx
      · simpa using ha
      · exact hwall x hx
    · rintro ⟨hl, hall⟩
      cases v with
      | nil => simp at hl
      | cons a w =>
        simp only [brute_init_vals, List.mem_flatMap, List.mem_map]
        refine ⟨a, by simpa using hall a (List.mem_cons_self a w), w, ?_, rfl⟩
        refine (ih w).mpr ⟨by simpa using hl, ?_⟩
        intro x hx
        exact hall x (List.mem_cons_of_mem a hx)

/-- The brute-force start list has no duplicate entries. -/
theorem brute_init_vals_nodup (n : ℕ) : (brute_init_vals n).Nodup := by
  induction n with
  | zero => simp [brute_init_vals]
  | succ n ih =>
    have hinj : ∀ q : ℚ, Function.Injective (fun c : List ℚ => q :: c) := by
      intro q c c' h
      exact (List.cons.injEq _ _ _ _).mp h |>.2
    have h1 : ((brute_init_vals n).map (fun c => (-1 : ℚ) :: c)).Nodup :=
      ih.map (hinj (-1))
    have h2 : ((brute_init_vals n).map (fun c => (1 : ℚ) :: c)).Nodup :=
      ih.map (hinj 1)
    have hd : List.Disjoint ((brute_init_vals n).map (fun c => (-1 : ℚ) :: c))
        ((brute_init_vals n).map (fun c => (1 : ℚ) :: c)) := by
      intro a ha hb
      simp only [List.mem_map] at ha hb
      obtain ⟨c, _, rfl⟩ := ha
      obtain ⟨c', _, hc'⟩ := hb
      have := (List.cons.injEq _ _ _ _).mp hc' |>.1
      norm_num at this
    have : brute_init_vals (n + 1) =
        ((brute_init_vals n).map (fun c => (-1 : ℚ) :: c)) ++
          ((brute_init_vals n).map (fun c => (1 : ℚ) :: c)) := by
      simp [brute_init_vals]
    rw [this]
    exact h1.append h2 hd

/-- The selected run is one of the candidates. -/
theorem select_min_mem (l : List MinimizeResult) (hne : l ≠ []) :
    select_min l ∈ l := by
  induction l with
  | nil => exact absurd rfl hne
  | cons r t ih =>
    cases t with
    | nil => simp [select_min]
    | cons s rest =>
      simp only [select_min]
      split
      · exact List.mem_cons_self _ _
      · exact List.mem_cons_of_mem _ (ih (by simp))

/-- The selected run has the minimal objective value among the
candidates. -/
theorem select_min_le (l : List MinimizeResult) :
    ∀ r ∈ l, (select_min l).fun_val.val ≤ r.fun_val.val := by
  induction l with
  | nil => intro r h; simp at h
  | cons a t ih =>
    intro r hr
    cases t with
    | nil =>
      simp only [List.mem_singleton] at hr
      subst hr
      simp [select_min]
    | cons s rest =>
      simp only [select_min]
      rcases List.mem_cons.mp hr with rfl | h
      · split
        · exact le_refl _
        · exact le_of_not_le (by assumption)
      · split
        · exact le_trans (by assumption) (ih r h)
        · exact ih r h

/-- When the robust-hash cache lookup misses and either phase B failed or
brute forcing is requested, `fit_scipy_robust` takes the brute-force
branch: it errors when no run survives the finiteness filter, and
otherwise returns the minimal surviving run, writing it back only under
the robust-tag hash (on top of the phase writes). -/
theorem fit_scipy_robust_brute_branch (minimize : Minimizer) (e : Expr) (h : Hist)
    (c : Option FitCache) (brute : Bool)
    (hc : c.bind (fun cc => cc.get (robust_hash e h)) = none)
    (hEnter : (phase_b minimize e h c).1.success = false ∨ brute = true) :
    fit_scipy_robust minimize e h c brute =
      match brute_force_results minimize e h with
      | [] => .error "Not a single fit of the brute force converged!"
      | _ :: _ =>
        .ok (select_min (brute_force_results minimize e h),
          (phase_b minimize e h c).2.map (fun cc =>
            cc.write (robust_hash e h)
              (select_min (brute_force_results minimize e h)))) := by
  have hfalse : ((phase_b minimize e h c).1.success && !brute) = false := by
    rcases hEnter with h1 | h1 <;> simp [h1]
  simp only [fit_scipy_robust, hc, hfalse]
  rfl

/-- C2: When the robust optimizer enters its brute-force fallback for an
expression with N fit parameters, it attempts exactly 2^N distinct
initial-value vectors (every combination of -1 and +1 across the N
components) with each of the two optimizer methods, discards every run
whose objective value is NaN or plus/minus infinity, and returns the run
with the minimum finite objective value. -/
theorem c2_brute_force_completeness (minimize : Minimizer) (e : Expr) (h : Hist)
    (c : Option FitCache) (brute : Bool)
    (hc : c.bind (fun cc => cc.get (robust_hash e h)) = none)
    (hEnter : (phase_b minimize e h c).1.success = false ∨ brute = true)
    (hbr : brute_force_results minimize e h ≠ []) :
    (brute_init_vals (count_parameters e - 1)).length =
        2 ^ (count_parameters e - 1) ∧
      (brute_init_vals (count_parameters e - 1)).Nodup ∧
      (∀ v : List ℚ, v ∈ brute_init_vals (count_parameters e - 1) ↔
        (v.length = count_parameters e - 1 ∧ ∀ x ∈ v, x = -1 ∨ x = 1)) ∧
      brute_force_results minimize e h =
        (brute_force_runs minimize e h).filter is_finite_res ∧
      fit_scipy_robust minimize e h c brute =
        .ok (select_min (brute_force_results minimize e h),
          (phase_b minimize e h c).2.map (fun cc =>
            cc.write (robust_hash e h)
              (select_min (brute_force_results minimize e h)))) ∧
      select_min (brute_force_results minimize e h) ∈
        brute_force_results minimize e h ∧
      ∀ r ∈ brute_force_results minimize e h,
        (select_min (brute_force_results minimize e h)).fun_val.val ≤
          r.fun_val.val := by
  refine ⟨brute_init_vals_length _, brute_init_vals_nodup _, brute_init_vals_mem _,
    rfl, ?_, select_min_mem _ hbr, select_min_le _⟩
  rw [fit_scipy_robust_brute_branch minimize e h c brute hc hEnter]
  cases hres : brute_force_results minimize e h with
  | nil => exact absurd hres hbr
  | cons a t => rfl

/-- Witness for C2 at a concrete input: the one-parameter expression `e0`
over `h0` with the echoing minimizer `M0`, no cache and forced brute; the
brute-force runs are nonempty and the returned result is the minimal run. -/
theorem c2_brute_force_completeness_witness :
    ((none : Option FitCache).bind (fun cc => cc.get (robust_hash e0 h0)) =
        none) ∧
      ((phase_b M0 e0 h0 none).1.success = false ∨ true = true) ∧
      brute_force_results M0 e0 h0 ≠ [] ∧
      (brute_init_vals (count_parameters e0 - 1)).length =
        2 ^ (count_parameters e0 - 1) ∧
      fit_scipy_robust M0 e0 h0 none true =
        .ok (select_min (brute_force_results M0 e0 h0),
          (phase_b M0 e0 h0 none).2.map (fun cc =>
            cc.write (robust_hash e0 h0)
              (select_min (brute_force_results M0 e0 h0)))) := by
  have hbr : brute_force_results M0 e0 h0 ≠ [] := by
    simp +decide [brute_force_results, brute_force_runs, brute_methods,
      brute_init_vals, single_fit_scipy, M0, e0, count_parameters, max_var,
      is_finite_res, FloatVal.isnan, FloatVal.isposinf, FloatVal.isneginf]
  exact ⟨rfl, Or.inr rfl, hbr,
    (c2_brute_force_completeness M0 e0 h0 none true rfl (Or.inr rfl) hbr).1,
    (c2_brute_force_completeness M0 e0 h0 none true rfl (Or.inr rfl)
      hbr).2.2.2.2.1⟩

/-- C8: The brute-force fallback fails (the spec's `NoConvergenceError`;
the source raises `Exception('Not a single fit of the brute force
converged!')`) exactly when all of its 2^N x 2 runs produced a non-finite
objective value; if at least one run produced a finite objective value, no
such error is raised and a result is returned. -/
theorem c8_no_convergence_error (minimize : Minimizer) (e : Expr) (h : Hist)
    (c : Option FitCache) (brute : Bool)
    (hc : c.bind (fun cc => cc.get (robust_hash e h)) = none)
    (hEnter : (phase_b minimize e h c).1.success = false ∨ brute = true) :
    (fit_scipy_robust minimize e h c brute =
        .error "Not a single fit of the brute force converged!" ↔
      ∀ r ∈ brute_force_runs minimize e h, is_finite_res r = false) ∧
    (brute_force_results minimize e h ≠ [] →
      ∃ p, fit_scipy_robust minimize e h c brute = .ok p) := by
  rw [fit_scipy_robust_brute_branch minimize e h c brute hc hEnter]
  constructor
  · constructor
    · intro herr
      cases hres : brute_force_results minimize e h with
      | nil =>
        have hfil : (brute_force_runs minimize e h).filter is_finite_res = [] :=
          hres
        intro r hr
        have := (List.filter_eq_nil_iff.mp hfil) r hr
        simpa using this
      | cons a t =>
        rw [hres] at herr
        simp at herr
    · intro hall
      have hres : brute_force_results minimize e h = [] :=
        List.filter_eq_nil_iff.mpr (fun a ha => by simp [hall a ha])
      rw [hres]
  · intro hbr
    cases hres : brute_force_results minimize e h with
    | nil => exact absurd hres hbr
    | cons a t => exact ⟨_, rfl⟩

/-- Witness for C8 at a concrete input: with the all-NaN minimizer `Mnan`
every brute-force run is non-finite and the robust fit errors. -/
theorem c8_no_convergence_error_witness :
    ((none : Option FitCache).bind (fun cc => cc.get (robust_hash e0 h0)) =
        none) ∧
      ((phase_b Mnan e0 h0 none).1.success = false ∨ true = true) ∧
      fit_scipy_robust Mnan e0 h0 none true =
        .error "Not a single fit of the brute force converged!" := by
  refine ⟨rfl, Or.inr rfl, ?_⟩
  refine (c8_no_convergence_error Mnan e0 h0 none true rfl (Or.inr rfl)).1.mpr ?_
  simp +decide [brute_force_runs, brute_methods, brute_init_vals,
    single_fit_scipy, Mnan, e0, count_parameters, max_var, is_finite_res,
    FloatVal.isnan, FloatVal.isposinf, FloatVal.isneginf]

/-- C5 counterexample: the cache `C0` holds, under exactly the hash of the
brute-force run (method BFGS, start [-1], tol 1e-3) of `e0` over `h0`, a
result `Rc` with objective 0 — strictly better than anything the minimizer
`M0` produces; were every brute-force run consulting the cache as the
claim states, that run would return `Rc` and `Rc` (minimal objective)
would be selected; the robust fit instead returns the fresh run
`{x := [-1], fun := 1, success := false}`, so the brute-force runs neither
read nor honour the cache. -/
theorem c5_counterexample :
    C0.get (make_fit_hash e0 h0 (some [-1]) none (some (1 / 1000)) (some "BFGS")) =
        some Rc ∧
      Rc.fun_val.val < 1 ∧
      Except.map Prod.fst (fit_scipy_robust M0 e0 h0 (some C0) true) =
        .ok ⟨[-1], FloatVal.finite 1, false⟩ ∧
      (⟨[-1], FloatVal.finite 1, false⟩ : MinimizeResult) ≠ Rc ∧
      (⟨[-1], FloatVal.finite 1, false⟩ : MinimizeResult).fun_val.val = 1 := by
  refine ⟨?_, ?_, ?_, ?_, ?_⟩
  · simp [C0, FitCache.get, List.find?]
  · norm_num [Rc, FloatVal.val]
  · norm_num +decide [fit_scipy_robust, phase_b, phase_a, single_fit_scipy,
      robust_hash, make_fit_hash, hash_floats5, hash_init_tokens, hash_tol_tokens,
      hash_method_tokens, hash_tag_tokens, FitCache.get, FitCache.write, C0, M0,
      e0, h0, count_parameters, max_var, brute_force_results, brute_force_runs,
      brute_methods, brute_init_vals, is_finite_res, FloatVal.isnan,
      FloatVal.isposinf, FloatVal.isneginf, select_min, FloatVal.val, round_to,
      round_eq, List.find?, Rc, Except.map]
  · simp [Rc]
  · norm_num [FloatVal.val]

/-- C5 (amended): the top-level robust entry and the two two-phase calls go
through the cache, but the brute-force fallback runs are executed without
it: when the robust-tag lookup misses and brute forcing is requested, the
outcome is determined by the cacheless `brute_force_results` alone (so it
is identical for any two caches missing the robust hash), and the only
write beyond the two phase writes is the selected best result under the
robust-tag hash. -/
theorem c5_brute_runs_bypass_cache (minimize : Minimizer) (e : Expr) (h : Hist)
    (c : Option FitCache)
    (hc : c.bind (fun cc => cc.get (robust_hash e h)) = none) :
    (fit_scipy_robust minimize e h c true =
      match brute_force_results minimize e h with
      | [] => .error "Not a single fit of the brute force converged!"
      | _ :: _ =>
        .ok (select_min (brute_force_results minimize e h),
          (phase_b minimize e h c).2.map (fun cc =>
            cc.write (robust_hash e h)
              (select_min (brute_force_results minimize e h))))) ∧
    (∀ c' : Option FitCache,
      c'.bind (fun cc => cc.get (robust_hash e h)) = none →
      Except.map Prod.fst (fit_scipy_robust minimize e h c true) =
        Except.map Prod.fst (fit_scipy_robust minimize e h c' true)) := by
  constructor
  · exact fit_scipy_robust_brute_branch minimize e h c true hc (Or.inr rfl)
  · intro c' hc'
    rw [fit_scipy_robust_brute_branch minimize e h c true hc (Or.inr rfl),
      fit_scipy_robust_brute_branch minimize e h c' true hc' (Or.inr rfl)]
    cases brute_force_results minimize e h with
    | nil => rfl
    | cons a t => rfl

/-- Witness for C5 (amended) at a concrete input: the robust fit of `e0`
over `h0` with forced brute returns the same result whether run against
the populated cache `C0` or no cache at all. -/
theorem c5_brute_runs_bypass_cache_witness :
    ((some C0).bind (fun cc => cc.get (robust_hash e0 h0)) = none) ∧
      Except.map Prod.fst (fit_scipy_robust M0 e0 h0 (some C0) true) =
        Except.map Prod.fst (fit_scipy_robust M0 e0 h0 none true) := by
  have hc : (some C0).bind (fun cc => cc.get (robust_hash e0 h0)) = none := by
    norm_num +decide [C0, FitCache.get, robust_hash, make_fit_hash, hash_floats5,
      hash_init_tokens, hash_tol_tokens, hash_method_tokens, hash_tag_tokens,
      e0, h0, round_to, round_eq, List.find?, Rc]
  exact ⟨hc, (c5_brute_runs_bypass_cache M0 e0 h0 (some C0) hc).2 none rfl⟩
